import Mathlib

/-!
Verification of the Testray automated-triage helpers.

Shallow embedding of the failure-classification and reconciliation logic of
`utils/liferay_utils/utilities.py`, `utils/liferay_utils/testray_utils/testray_helpers.py`,
`utils/liferay_utils/testray_utils/testray_api.py` and
`liferay/teams/headless/headless_testray.py`.

External collaborators (the Jira connection, the sentence-embedding similarity
model, the HTTP layer) are modelled as explicit function parameters (oracles);
per-run caches are modelled by passing the fetched history directly.  Python
strings are Lean `String`s; a nullable string field is modelled as `""` when
the code treats `None` and `""` the same way (both falsy), and as
`Option String` where the distinction matters.  Python `re.sub` instances are
embedded as direct character-list transducers that mirror the exact scanning
semantics (leftmost match, no rescan of replacements, greedy/lazy as in the
pattern, alternation order).
-/

namespace Testray

/-! ## Python string primitives -/

/-- Python whitespace for `str.split` / `str.strip` / regex `\s`
(space, tab, newline, vertical tab, form feed, carriage return). -/
def pyWs (c : Char) : Bool :=
  c.toNat == 32 || (9 ≤ c.toNat && c.toNat ≤ 13)

/-- ASCII decimal digit, regex `\d`. -/
def isDigitCh (c : Char) : Bool :=
  48 ≤ c.toNat && c.toNat ≤ 57

/-- Python `s.strip()`: drop whitespace from both ends. -/
def pyStrip (l : List Char) : List Char :=
  ((l.dropWhile pyWs).reverse.dropWhile pyWs).reverse

/-- Maximal non-whitespace runs of a string: Python `s.split()`.
Fuel decreases by one per word; each word step consumes at least one char. -/
def splitWsGo : Nat → List Char → List (List Char)
  | 0, _ => []
  | fuel + 1, l =>
    let l1 := l.dropWhile pyWs
    match l1 with
    | [] => []
    | _ =>
      l1.takeWhile (fun c => !pyWs c) ::
        splitWsGo fuel (l1.dropWhile (fun c => !pyWs c))

/-- Python `' '.join(s.strip().split())`: collapse whitespace runs to single
spaces and trim. -/
def collapseWs (l : List Char) : List Char :=
  List.intercalate [' '] (splitWsGo (l.length + 1) l)

/-! ## The `normalize_error` substitutions (utilities.py lines 41-55)

Each `re.sub(pattern, repl, s)` is a left-to-right scan: at each position try
the pattern; on a match emit the replacement and continue right after the
match (replacements are never rescanned); otherwise emit one char and move on.
-/

/-- Try the timestamp pattern `\d{4}-\d{2}-\d{2}[\sT]\d{2}:\d{2}:\d{2}` at the
head; on success return the input after the 19 matched chars. -/
def tsTail (l : List Char) : Option (List Char) :=
  match l with
  | a :: b :: c :: d :: '-' :: e :: f :: '-' :: g :: h :: s ::
      i :: j :: ':' :: k :: m :: ':' :: p :: q :: rest =>
    if [a, b, c, d, e, f, g, h, i, j, k, m, p, q].all isDigitCh &&
        (pyWs s || s == 'T') then
      some rest
    else none
  | _ => none

/-- `re.sub` scan for the timestamp pattern, deleting matches. -/
def subTs : Nat → List Char → List Char
  | 0, l => l
  | _, [] => []
  | fuel + 1, c :: cs =>
    match tsTail (c :: cs) with
    | some rest => subTs fuel rest
    | none => c :: subTs fuel cs

/-- Regex `[0-9A-Fa-f]`. -/
def isHexDigitCh (c : Char) : Bool :=
  isDigitCh c || (97 ≤ c.toNat && c.toNat ≤ 102) || (65 ≤ c.toNat && c.toNat ≤ 70)

/-- Try `0x[0-9A-Fa-f]+` (greedy) at the head; return the input after the match. -/
def hexTail (l : List Char) : Option (List Char) :=
  match l with
  | '0' :: 'x' :: rest =>
    if (rest.takeWhile isHexDigitCh).isEmpty then none
    else some (rest.dropWhile isHexDigitCh)
  | _ => none

/-- `re.sub` scan for the memory-address pattern, deleting matches. -/
def subHex : Nat → List Char → List Char
  | 0, l => l
  | _, [] => []
  | fuel + 1, c :: cs =>
    match hexTail (c :: cs) with
    | some rest => subHex fuel rest
    | none => c :: subHex fuel cs

/-- The unit alternation `(ms|s|seconds|minutes|m)` in source order.  The
`seconds` alternative can never fire in Python because any text starting with
`s` is already taken by the earlier `s` alternative, so the observable
alternatives are `ms`, `s`, `minutes`, `m`. -/
def durUnitTail : List Char → Option (List Char)
  | 'm' :: 's' :: rest => some rest
  | 's' :: rest => some rest
  | 'm' :: 'i' :: 'n' :: 'u' :: 't' :: 'e' :: 's' :: rest => some rest
  | 'm' :: rest => some rest
  | _ => none

/-- Try the duration pattern `\d+\s*(ms|s|seconds|minutes|m)` at the head
(greedy digits, then greedy whitespace, then the unit alternation; no
backtracking can help because a shorter digit or whitespace run leaves a
digit or whitespace char where a unit letter is required). -/
def durTail (l : List Char) : Option (List Char) :=
  let digits := l.takeWhile isDigitCh
  if digits.isEmpty then none
  else durUnitTail ((l.dropWhile isDigitCh).dropWhile pyWs)

/-- `re.sub` scan for the duration pattern, deleting matches. -/
def subDur : Nat → List Char → List Char
  | 0, l => l
  | _, [] => []
  | fuel + 1, c :: cs =>
    match durTail (c :: cs) with
    | some rest => subDur fuel rest
    | none => c :: subDur fuel cs

/-- Try `".*?"` at the head: a quote, then a lazy run of non-newline
non-quote chars, then the closing quote.  Returns the input after the match. -/
def quoteTail (l : List Char) : Option (List Char) :=
  match l with
  | '"' :: rest =>
    match rest.dropWhile (fun c => c != '"' && c.toNat != 10) with
    | '"' :: after => some after
    | _ => none
  | _ => none

/-- `re.sub` scan replacing every quoted substring with the placeholder
`"..."`. -/
def subQuotes : Nat → List Char → List Char
  | 0, l => l
  | _, [] => []
  | fuel + 1, c :: cs =>
    match quoteTail (c :: cs) with
    | some after => '"' :: '.' :: '.' :: '.' :: '"' :: subQuotes fuel after
    | none => c :: subQuotes fuel cs

/-- `normalize_error` (utilities.py lines 41-55): collapse whitespace, strip
timestamps, memory addresses and durations, replace quoted strings. -/
def normalize_error (error : String) : String :=
  if error = "" then ""
  else
    let l0 := collapseWs error.data
    let l1 := subTs (l0.length + 1) l0
    let l2 := subHex (l1.length + 1) l1
    let l3 := subDur (l2.length + 1) l2
    String.mk (subQuotes (l3.length + 1) l3)

/-- `normalize_error` on a nullable argument: `if not error: return ""`
treats `None` and `""` alike. -/
def normalize_error_opt : Option String → String
  | none => ""
  | some s => normalize_error s

/-! ## `parse_execution_date` (utilities.py lines 57-72)

`datetime.strptime` with formats `%Y-%m-%d %H:%M:%S.%f` and
`%Y-%m-%d %H:%M:%S`.  CPython compiles these to the regex
`\d{4}` `-` `(1[0-2]|0[1-9]|[1-9])` `-` `(3[01]|[12]\d|0[1-9]|[1-9])` `\s+`
`(2[0-3]|[0-1]\d|\d)` `:` `([0-5]\d|\d)` `:` `(6[0-1]|[0-5]\d|\d)`
(optionally `\.` `[0-9]{1,6}`), anchored at both ends, and then the
`datetime` constructor re-validates the day against the month length and
rejects leap seconds; a failure of either step raises `ValueError`, which the
caller catches, falling through to the next format and finally to `None`.
Because every field is followed by a character class disjoint from digits
(or by the end), a field always consumes the whole digit run in front of it:
a run of one or two digits must satisfy the corresponding value constraint
and a longer run fails the format.
-/

structure PyDateTime where
  year : Nat
  month : Nat
  day : Nat
  hour : Nat
  minute : Nat
  second : Nat
  microsecond : Nat
deriving DecidableEq, Repr

/-- Chronological comparison of `datetime` values (lexicographic by field). -/
def dtCompare (a b : PyDateTime) : Ordering :=
  (compare a.year b.year).then <| (compare a.month b.month).then <|
    (compare a.day b.day).then <| (compare a.hour b.hour).then <|
      (compare a.minute b.minute).then <| (compare a.second b.second).then <|
        compare a.microsecond b.microsecond

/-- `datetime.min`, the sort fallback for unparsable dates. -/
def datetimeMin : PyDateTime := ⟨1, 1, 1, 0, 0, 0, 0⟩

def digitVal (c : Char) : Nat := c.toNat - 48

def digitsVal (ds : List Char) : Nat := ds.foldl (fun a c => a * 10 + digitVal c) 0

def splitDigits (l : List Char) : List Char × List Char :=
  (l.takeWhile isDigitCh, l.dropWhile isDigitCh)

/-- `%Y`: exactly four digits. -/
def parseYear (l : List Char) : Option (Nat × List Char) :=
  if (splitDigits l).1.length == 4 then
    some (digitsVal (splitDigits l).1, (splitDigits l).2)
  else none

/-- A one-or-two-digit strptime field: `ok1` is the value constraint of the
one-digit branch of the alternation, `ok2` of the two-digit branches. -/
def parseField2 (ok1 ok2 : Nat → Bool) (l : List Char) : Option (Nat × List Char) :=
  match (splitDigits l).1 with
  | [a] => if ok1 (digitVal a) then some (digitVal a, (splitDigits l).2) else none
  | [a, b] =>
    if ok2 (10 * digitVal a + digitVal b) then
      some (10 * digitVal a + digitVal b, (splitDigits l).2)
    else none
  | _ => none

def expectChar (c : Char) : List Char → Option (List Char)
  | x :: rest => if x == c then some rest else none
  | [] => none

/-- The `\s+` that a space in a strptime format compiles to. -/
def expectWsRun (l : List Char) : Option (List Char) :=
  match l with
  | x :: _ => if pyWs x then some (l.dropWhile pyWs) else none
  | [] => none

/-- `%f` at the end of the string: one to six digits, right-padded with
zeros to microseconds. -/
def parseFrac (l : List Char) : Option Nat :=
  if (splitDigits l).2.isEmpty && !(splitDigits l).1.isEmpty &&
      (splitDigits l).1.length ≤ 6 then
    some (digitsVal (splitDigits l).1 * 10 ^ (6 - (splitDigits l).1.length))
  else none

def isLeapYear (y : Nat) : Bool :=
  y % 4 == 0 && (y % 100 != 0 || y % 400 == 0)

def daysInMonth (y m : Nat) : Nat :=
  if m == 2 then (if isLeapYear y then 29 else 28)
  else if m == 4 || m == 6 || m == 9 || m == 11 then 30 else 31

/-- The `datetime(...)` constructor validation that strptime's regex does not
already guarantee: the year is at least 1, the day fits the month and the
second is at most 59 (the regex admits leap seconds 60 and 61, the
constructor rejects them).  Failure raises `ValueError`, caught by the caller. -/
def mkValidDateTime (y mo d h mi s f : Nat) : Option PyDateTime :=
  if decide (1 ≤ y) && decide (d ≤ daysInMonth y mo) && decide (s ≤ 59) then
    some ⟨y, mo, d, h, mi, s, f⟩
  else none

/-- One `datetime.strptime(data, fmt)` call for the two formats of
`parse_execution_date`, on the char list of the (preprocessed) input. -/
def strptimeFormat (withFrac : Bool) (l : List Char) : Option PyDateTime := do
  let (y, l) ← parseYear l
  let l ← expectChar '-' l
  let (mo, l) ← parseField2 (fun v => decide (1 ≤ v)) (fun v => decide (1 ≤ v) && decide (v ≤ 12)) l
  let l ← expectChar '-' l
  let (d, l) ← parseField2 (fun v => decide (1 ≤ v)) (fun v => decide (1 ≤ v) && decide (v ≤ 31)) l
  let l ← expectWsRun l
  let (h, l) ← parseField2 (fun _ => true) (fun v => decide (v ≤ 23)) l
  let l ← expectChar ':' l
  let (mi, l) ← parseField2 (fun _ => true) (fun v => decide (v ≤ 59)) l
  let l ← expectChar ':' l
  let (s, l) ← parseField2 (fun _ => true) (fun v => decide (v ≤ 61)) l
  if withFrac then
    let l ← expectChar '.' l
    let f ← parseFrac l
    mkValidDateTime y mo d h mi s f
  else
    if l.isEmpty then mkValidDateTime y mo d h mi s 0 else none

/-- Drop a single trailing `'Z'` (`if date_str.endswith('Z')`). -/
def dropTrailingZ (l : List Char) : List Char :=
  match l.getLast? with
  | some c => if c == 'Z' then l.dropLast else l
  | none => l

/-- `parse_execution_date` (utilities.py lines 57-72): strip, drop one
trailing `Z`, replace every `T` with a space, then try the fractional format
and the plain format in order; `None` when both fail. -/
def parse_execution_date (dateStr : String) : Option PyDateTime :=
  let l0 := pyStrip dateStr.data
  let l1 := dropTrailingZ l0
  let l2 := l1.map (fun c => if c == 'T' then ' ' else c)
  (strptimeFormat true l2).orElse (fun _ => strptimeFormat false l2)

/-! ## Python substring containment (`needle in hay`) -/

/-- `startsWithB needle hay`: `hay` begins with `needle`. -/
def startsWithB : List Char → List Char → Bool
  | [], _ => true
  | _ :: _, [] => false
  | a :: as, b :: bs => a == b && startsWithB as bs

/-- `containsSub hay needle`: `needle` occurs as a contiguous sublist of
`hay` (Python `needle in hay` on strings; the empty needle always occurs). -/
def containsSub : List Char → List Char → Bool
  | [], needle => needle.isEmpty
  | c :: t, needle => startsWithB needle (c :: t) || containsSub t needle

/-- Python `needle in hay` on strings. -/
def strContainsB (hay needle : String) : Bool :=
  containsSub hay.data needle.data

/-! ## Domain records

Field selections of the duck-typed API payloads, with exactly the fields the
embedded functions read.  A nullable text field whose `None` and `""` are
treated alike by the code is modelled as `""`; `gitHash` keeps the
`None`/present distinction because `get_first_failing_git_hash` returns it
as-is. -/

structure HistoryEntry where
  status : String
  error : String
  executionDate : String
  gitHash : Option String
  testrayBuildId : Nat
deriving DecidableEq, Repr

structure CaseResult where
  id : Nat
  errors : String
  issues : String
  case_id : Nat
  component_id : Nat
deriving DecidableEq, Repr

structure Subtask where
  id : Nat
  dueStatusKey : String
  issues : String
deriving DecidableEq, Repr

/-- testray_api.py line 64: the status filter constant.  Note that the code
tests membership with `status in STATUS_FAILED_BLOCKED_TESTFIX`, a Python
substring test against this very string. -/
def STATUS_FAILED_BLOCKED_TESTFIX : String := "FAILED,TESTFIX,BLOCKED"

/-! ## `should_skip_result` (testray_helpers.py lines 707-720) -/

def skip_error_keywords : List String :=
  ["Failed prior to running test",
   "PortalLogAssertorTest#testScanXMLLog",
   "Skipped test",
   "The build failed prior to running the test",
   "test-portal-testsuite-upstream-downstream(master) timed out after",
   "TEST_SETUP_ERROR",
   "Unable to run test on CI"]

def should_skip_result (error : String) : Bool :=
  if strContainsB error "AssertionError" then false
  else skip_error_keywords.any (fun keyword => strContainsB error keyword)

/-! ## `detect_flakiness` (testray_helpers.py lines 855-904)

The Python function returns a 2-tuple `(False, reason)` from its two early
exits but a plain boolean from the final classification, and it divides by
`fail_count` without a guard.  The return is therefore modelled as a sum:
`tup` for the early tuple returns, `ok` for the final boolean, and
`zeroDivisionError` for the unguarded `similar_error_failures / fail_count`
when `fail_count` is 0.  The external per-run history cache is modelled by
passing the fetched history directly, and the sentence-embedding similarity
model (`are_errors_similar`) is the oracle parameter `sim`. -/

inductive DetectRet
  | tup (b : Bool) (reason : String)
  | ok (b : Bool)
  | zeroDivisionError
deriving DecidableEq, Repr

/-- The loop state of `detect_flakiness`: counters and the previous status
(`""` models the initial `None`; a falsy status behaves identically in the
`if last_status and last_status != status` guard).  The `unique_errors` set
of the source is computed but never read, so it is omitted. -/
structure FlakyStats where
  fail_count : Nat
  pass_count : Nat
  switch_count : Nat
  similar_error_failures : Nat
  last_status : String
deriving DecidableEq, Repr

/-- One iteration of the history loop of `detect_flakiness`. -/
def flakyStep (sim : String → String → Bool) (currentErrorNorm : String)
    (acc : FlakyStats) (result : HistoryEntry) : FlakyStats :=
  let error := normalize_error result.error
  let acc1 :=
    if strContainsB STATUS_FAILED_BLOCKED_TESTFIX result.status then
      { acc with
        fail_count := acc.fail_count + 1
        similar_error_failures :=
          acc.similar_error_failures + (if sim currentErrorNorm error then 1 else 0) }
    else if result.status == "PASSED" then
      { acc with pass_count := acc.pass_count + 1 }
    else acc
  let acc2 :=
    if acc1.last_status ≠ "" && acc1.last_status ≠ result.status then
      { acc1 with switch_count := acc1.switch_count + 1 }
    else acc1
  { acc2 with last_status := result.status }

def detect_flakiness (sim : String → String → Bool) (current_error_norm : String)
    (history : List HistoryEntry) : DetectRet :=
  if history.isEmpty then .tup false "no_history"
  else
    let st := history.foldl (flakyStep sim current_error_norm) ⟨0, 0, 0, 0, ""⟩
    let total := st.pass_count + st.fail_count
    if total < 5 then .tup false "insufficient_data"
    else if st.fail_count == 0 then .zeroDivisionError
    else
      let flakiness_score : ℚ := (st.switch_count : ℚ) / ((total : ℚ) - 1)
      let failure_rate : ℚ := (st.fail_count : ℚ) / (total : ℚ)
      let similar_error_ratio : ℚ := (st.similar_error_failures : ℚ) / (st.fail_count : ℚ)
      .ok (decide (flakiness_score > 12 / 100) &&
           (decide (5 / 100 < failure_rate) && decide (failure_rate < 75 / 100)) &&
           decide (similar_error_ratio ≥ 9 / 10))

/-- The `if is_flaky:` branch test of `process_summary_result`
(testray_helpers.py line 495) applied to what `detect_flakiness` returned:
a non-empty tuple is truthy in Python, a boolean is itself, and the
exception case never reaches the branch (`none`). -/
def is_flaky_branch_taken : DetectRet → Option Bool
  | .tup _ _ => some true
  | .ok b => some b
  | .zeroDivisionError => none

/-! ## History repository (testray_helpers.py lines 1041-1096) -/

def filter_case_result_history_by_build (history : List HistoryEntry) (buildId : Nat) :
    List HistoryEntry :=
  history.filter (fun item => item.testrayBuildId == buildId)

/-- The sort key of `sort_by_execution_date_desc`: the parsed execution date
or `datetime.min`. -/
def sortKeyExecDate (item : HistoryEntry) : PyDateTime :=
  (parse_execution_date item.executionDate).getD datetimeMin

/-- Stable descending insertion: the new item goes after every already
placed item whose key is at least its own (so equal keys keep their original
relative order, as Python's stable sort guarantees). -/
def insertExecDateDesc (x : HistoryEntry) : List HistoryEntry → List HistoryEntry
  | [] => [x]
  | y :: t =>
    if dtCompare (sortKeyExecDate y) (sortKeyExecDate x) != .lt then
      y :: insertExecDateDesc x t
    else x :: y :: t

/-- `sorted(items, key=get_sort_key, reverse=True)`: a stable descending
sort, embedded as a stable insertion sort (extensionally the same ordering
as CPython's stable sort with `reverse=True`). -/
def sort_by_execution_date_desc (items : List HistoryEntry) : List HistoryEntry :=
  items.foldl (fun acc x => insertExecDateDesc x acc) []

/-- `get_last_passing_result` (testray_helpers.py lines 1060-1088) at its
call sites, where `max_execution_date` arrives as a string: unparsable cutoff
gives `None`; PASSED entries with a parsable date strictly before the cutoff
are scanned and the one with the latest date wins (first seen on ties). -/
def get_last_passing_result (entire_history : List HistoryEntry)
    (max_execution_date : String) : Option HistoryEntry :=
  match parse_execution_date max_execution_date with
  | none => none
  | some maxDt =>
    (entire_history.foldl
      (fun acc item =>
        if item.status != "PASSED" then acc
        else if item.executionDate = "" then acc
        else
          match parse_execution_date item.executionDate with
          | none => acc
          | some d =>
            if dtCompare d maxDt != .lt then acc
            else
              match acc with
              | none => some (item, d)
              | some (_, lastDate) =>
                if dtCompare d lastDate == .gt then some (item, d) else acc)
      none).map Prod.fst

/-- `get_first_failing_git_hash` (testray_helpers.py lines 577-607) with the
per-run cache modelled by passing the fetched, descending-sorted history.
When a last passing run exists, the history is walked in reverse (ascending)
order and the hash of the first entry after it whose status passes the
substring test against `STATUS_FAILED_BLOCKED_TESTFIX` is returned, even when
that hash is absent (`none`); the re-parse of the last passing date cannot
fail because `get_last_passing_result` only returns entries it parsed. -/
def get_first_failing_git_hash (entire_history : List HistoryEntry) (buildId : Nat) :
    Option String :=
  if entire_history.isEmpty then none
  else
    match filter_case_result_history_by_build entire_history buildId with
    | [] => none
    | w0 :: _ =>
      match get_last_passing_result entire_history w0.executionDate with
      | none => w0.gitHash
      | some lastPassing =>
        match parse_execution_date lastPassing.executionDate with
        | none => none
        | some lastPassDt =>
          (entire_history.reverse.findSome? (fun item =>
            match parse_execution_date item.executionDate with
            | none => none
            | some d =>
              if dtCompare d lastPassDt == .gt &&
                  strContainsB STATUS_FAILED_BLOCKED_TESTFIX item.status then
                some item.gitHash
              else none)).join

/-! ## Subtask scanning, grouping and resolution
(testray_helpers.py lines 221-311, headless_testray.py lines 72-178)

External effects are oracles: `findSim` is `find_similar_open_issues`
restricted to its tuple form — `some issuesStr` models
`(True, a dict with dueStatus BLOCKED and issues issuesStr)` — and
`createIssue` is `create_investigation_task_for_subtask`, `none` modelling a
creation that returned nothing. -/

structure Failure where
  error : String
  subtask_id : Nat
  case_id : Nat
  component_id : Nat
  result_id : Nat
deriving DecidableEq, Repr

/-- The loop of `_scan_unique_failures`; the boolean argument is
`first_result`, the boolean result `first_result_skipped` (the
`update_subtask_status` side effect of the short-circuit is outside the
returned data).  Once the first result short-circuits, later iterations run
with `first_result` false and can never set the flag. -/
def scan_unique_failures_go (subtaskId : Nat) :
    List CaseResult → Bool → List Failure × Bool
  | [], _ => ([], false)
  | r :: rest, firstResult =>
    let error := r.errors
    if firstResult && should_skip_result error then
      ((scan_unique_failures_go subtaskId rest false).1, true)
    else if r.issues ≠ "" || should_skip_result error then
      scan_unique_failures_go subtaskId rest false
    else
      let (fs, b) := scan_unique_failures_go subtaskId rest false
      (⟨error, subtaskId, r.case_id, r.component_id, r.id⟩ :: fs, b)

/-- `_scan_unique_failures` (testray_helpers.py lines 221-255). -/
def scan_unique_failures (subtaskId : Nat) (results : List CaseResult) :
    List Failure × Bool :=
  scan_unique_failures_go subtaskId results true

/-- Insertion into a `defaultdict(list)` that preserves first-seen key order
(Python dict iteration order). -/
def insertGrouped (gs : List (String × List Failure)) (k : String) (f : Failure) :
    List (String × List Failure) :=
  match gs with
  | [] => [(k, [f])]
  | (k0, l0) :: rest =>
    if k0 = k then (k0, l0 ++ [f]) :: rest
    else (k0, l0) :: insertGrouped rest k f

/-- `_group_failures_by_error` (testray_helpers.py lines 258-266). -/
def group_failures_by_error (fs : List Failure) : List (String × List Failure) :=
  fs.foldl (fun gs f => insertGrouped gs (normalize_error f.error) f) []

structure BatchUpdate where
  id : Nat
  dueStatusKey : String
  issues : String
deriving DecidableEq, Repr

/-- `_blocked_update` (testray_helpers.py lines 310-311). -/
def blocked_update (resultId : Nat) (dueStatusKey issuesStr : String) : BatchUpdate :=
  ⟨resultId, dueStatusKey, issuesStr⟩

structure Resolution where
  updates : List BatchUpdate
  issuesStr : Option String
  resolved : Bool
  createdIssue : Option String
deriving DecidableEq, Repr

/-- `_resolve_unique_failures` (testray_helpers.py lines 269-307): probe the
duplicate resolver with the first failure of the group; on a match, stage a
BLOCKED update for every member with the found issue keys; otherwise create
one new investigation issue for the whole group (recorded in `createdIssue`),
or give up unresolved if creation returned nothing. -/
def resolve_unique_failures (findSim : Nat → String → Option String)
    (createIssue : List Failure → Option String) (group : List Failure) : Resolution :=
  match group with
  | [] => ⟨[], none, true, none⟩
  | probe :: _ =>
    match findSim probe.case_id probe.error with
    | some issueKeysStr =>
      ⟨group.map (fun f => blocked_update f.result_id "BLOCKED" issueKeysStr),
       some issueKeysStr, true, none⟩
    | none =>
      match createIssue group with
      | none => ⟨[], none, false, none⟩
      | some issueKey =>
        ⟨group.map (fun f => blocked_update f.result_id "BLOCKED" issueKey),
         some issueKey, true, some issueKey⟩

/-- The per-group loop of `process_task_subtasks` (testray_helpers.py lines
147-160): one `_resolve_unique_failures` call per normalized-error group. -/
def process_subtask_groups (findSim : Nat → String → Option String)
    (createIssue : List Failure → Option String)
    (gs : List (String × List Failure)) : List (String × Resolution) :=
  gs.map (fun kg => (kg.1, resolve_unique_failures findSim createIssue kg.2))

/-- The per-subtask resolution block of `analyze_testflow`
(headless_testray.py lines 131-174): a single probe with the first collected
unique failure decides ONE resolution covering all of them, with no grouping
by normalized error; each returned decision pairs the issue string with the
staged updates. -/
def analyze_testflow_subtask_resolution (findSim : Nat → String → Option String)
    (createIssue : List Failure → Option String) (fs : List Failure) :
    List (String × List BatchUpdate) :=
  match fs with
  | [] => []
  | probe :: _ =>
    match findSim probe.case_id probe.error with
    | some issueKeysStr =>
      [(issueKeysStr, fs.map (fun f => blocked_update f.result_id "BLOCKED" issueKeysStr))]
    | none =>
      match createIssue fs with
      | some issueKey =>
        [(issueKey, fs.map (fun f => blocked_update f.result_id "BLOCKED" issueKey))]
      | none => []

/-! ## Batched case-result updates (testray_api.py lines 99-108)

`assign_issue_to_case_result_batch` is a sequential loop of one `PUT` per
item; `put_json` raises on failure, aborting the loop.  The oracle `putOk`
tells which PUTs succeed; the result is the list of case-result ids actually
written and whether the whole loop ran without raising. -/

def assign_issue_to_case_result_batch (putOk : BatchUpdate → Bool) :
    List BatchUpdate → List Nat × Bool
  | [] => ([], true)
  | u :: rest =>
    if putOk u then
      let (written, ok) := assign_issue_to_case_result_batch putOk rest
      (u.id :: written, ok)
    else ([], false)

/-! ## Task completion (testray_helpers.py lines 173-200 and 941-971) -/

/-- Split a comma-separated issue string into stripped non-empty keys. -/
def splitIssueKeys (issuesStr : String) : List String :=
  if issuesStr = "" then []
  else ((issuesStr.splitOn ",").map (fun k => String.mk (pyStrip k.data))).filter
    (fun k => k ≠ "")

/-- The issue keys referenced by the subtasks (a set in the source; modelled
as a list queried only for membership). -/
def collect_issue_keys_from_subtasks (subtasks : List Subtask) : List String :=
  subtasks.foldl (fun acc s => acc ++ splitIssueKeys s.issues) []

/-- `check_and_complete_task_if_all_subtasks_done` (testray_helpers.py lines
941-971) with the Jira query `get_all_issues` as the `openJiraIssueKeys`
oracle: returns whether `complete_task` was invoked and which stale issues
were closed. -/
def check_and_complete_task_if_all_subtasks_done (subtasks : List Subtask)
    (openJiraIssueKeys : List String) : Bool × List String :=
  if subtasks.all (fun s => s.dueStatusKey == "COMPLETE") then
    (true,
     openJiraIssueKeys.filter
       (fun k => !(collect_issue_keys_from_subtasks subtasks).contains k))
  else (false, [])

/-- The completion guard of `finalize_task_completion` (testray_helpers.py
lines 188-200): `complete_task` is reached only past this test. -/
def finalize_task_completion_completes (subtasks : List Subtask) : Bool :=
  subtasks.all (fun s => s.dueStatusKey == "COMPLETE")

/-! ## Claim-facing auxiliary definitions -/

/-- Substring occurrence as a proposition (the meaning of Python
`needle in hay`). -/
def ContainsSub (hay needle : String) : Prop :=
  ∃ front back : List Char, hay.data = front ++ needle.data ++ back

/-- The three non-passed statuses named by the spec. -/
def failingStatuses : List String := ["FAILED", "BLOCKED", "TESTFIX"]

def isFailingStatus (e : HistoryEntry) : Bool :=
  failingStatuses.contains e.status

/-- Spec-side count of failing entries of a history. -/
def specFailCount (hist : List HistoryEntry) : Nat :=
  hist.countP isFailingStatus

/-- Spec-side count of PASSED entries of a history. -/
def specPassCount (hist : List HistoryEntry) : Nat :=
  hist.countP (fun e => e.status == "PASSED")

/-- Spec-side total: PASSED plus failing entries. -/
def specTotal (hist : List HistoryEntry) : Nat :=
  specPassCount hist + specFailCount hist

/-- Spec-side switch count: adjacent history entries whose status differs
from the previous one. -/
def specSwitchCount (hist : List HistoryEntry) : Nat :=
  (hist.zip hist.tail).countP (fun p => p.1.status != p.2.status)

/-- Spec-side count of failing entries whose normalized error the similarity
oracle judges similar to the current error. -/
def specSimilarErrorFailures (sim : String → String → Bool) (cur : String)
    (hist : List HistoryEntry) : Nat :=
  hist.countP (fun e => isFailingStatus e && sim cur (normalize_error e.error))

/-- The switch count accumulated by the loop of `detect_flakiness` starting
from a previous status (`""` is the initial `None`). -/
def switchFrom (prev : String) : List HistoryEntry → Nat
  | [] => 0
  | e :: rest =>
    (if prev ≠ "" && prev ≠ e.status then 1 else 0) + switchFrom e.status rest

/-- The failing-status test exactly as the code performs it: the Python
substring membership `status in STATUS_FAILED_BLOCKED_TESTFIX`. -/
def codeFailB (e : HistoryEntry) : Bool :=
  strContainsB STATUS_FAILED_BLOCKED_TESTFIX e.status

/-- The `last_status` value after folding the loop over a history. -/
def lastStatusAfter (prev : String) : List HistoryEntry → String
  | [] => prev
  | e :: rest => lastStatusAfter e.status rest

/-- Scan for an occurrence of a pattern (given by its head matcher) anywhere
in the input. -/
def scanHasMatch (tryMatch : List Char → Option (List Char)) :
    Nat → List Char → Bool
  | 0, _ => false
  | _, [] => false
  | fuel + 1, c :: cs => (tryMatch (c :: cs)).isSome || scanHasMatch tryMatch fuel cs

def hasTimestampToken (s : String) : Bool :=
  scanHasMatch tsTail (s.data.length + 1) s.data

def hasHexAddressToken (s : String) : Bool :=
  scanHasMatch hexTail (s.data.length + 1) s.data

def hasDurationToken (s : String) : Bool :=
  scanHasMatch durTail (s.data.length + 1) s.data

/-- Formalization of the spec's phrase "the git hash of the earliest known
failure in the current build's window", written from the spec's words (not
from the source) for comparison against `get_first_failing_git_hash`: among
the build-window entries with a failing status and a parsable date, the one
with the earliest execution date (first seen on ties). -/
def spec_earliest_window_failure_hash (history : List HistoryEntry) (buildId : Nat) :
    Option String :=
  ((filter_case_result_history_by_build history buildId).foldl
    (fun acc item =>
      if isFailingStatus item then
        match parse_execution_date item.executionDate with
        | none => acc
        | some d =>
          match acc with
          | none => some (item, d)
          | some (_, d0) => if dtCompare d d0 == .lt then some (item, d) else acc
      else acc)
    none).bind (fun p => p.1.gitHash)

/-! ## Concrete instances used by the counterexamples and witnesses -/

/-- An all-passing history of five entries (C1's failing input). -/
def c1_history : List HistoryEntry :=
  List.replicate 5 ⟨"PASSED", "", "2024-01-01 00:00:00", some "h", 1⟩

/-- A sparse history: one pass, one failure (C2's failing input). -/
def c2_history : List HistoryEntry :=
  [⟨"PASSED", "", "2024-01-01 00:00:00", none, 1⟩,
   ⟨"FAILED", "boom", "2024-01-02 00:00:00", none, 1⟩]

def simNever : String → String → Bool := fun _ _ => false

def simAlways : String → String → Bool := fun _ _ => true

def c3_f1 : Failure := ⟨"errA", 1, 10, 0, 100⟩

def c3_f2 : Failure := ⟨"errB", 1, 11, 0, 101⟩

def c3_findSim : Nat → String → Option String := fun _ _ => some "LPD-1"

def c4_batch : List BatchUpdate :=
  [⟨1, "BLOCKED", "LPD-1"⟩, ⟨2, "BLOCKED", "LPD-1"⟩]

/-- A PUT oracle under which the first update succeeds and the second raises. -/
def c4_putOk : BatchUpdate → Bool := fun u => u.id == 1

def c5_fail_early : HistoryEntry :=
  ⟨"FAILED", "x", "2024-01-01 00:00:00", some "h1", 1⟩

def c5_fail_late : HistoryEntry :=
  ⟨"FAILED", "x", "2024-01-02 00:00:00", some "h2", 1⟩

/-- A two-failure, no-pass history for build 1, as the cache stores it
(descending by execution date). -/
def c5_history : List HistoryEntry :=
  sort_by_execution_date_desc [c5_fail_early, c5_fail_late]

/-- The spec's normalization example (section 8). -/
def c7_spec_example : String :=
  "Error at 2024-01-01 12:00:00 took 150ms addr 0x1a2b val \"foo\""

/-- A ten-entry oscillating history: three failures with the same error
interleaved with passes, then a stable passing tail. -/
def c8_history : List HistoryEntry :=
  [⟨"FAILED", "x", "", none, 1⟩, ⟨"PASSED", "", "", none, 1⟩,
   ⟨"FAILED", "x", "", none, 1⟩, ⟨"PASSED", "", "", none, 1⟩,
   ⟨"FAILED", "x", "", none, 1⟩, ⟨"PASSED", "", "", none, 1⟩,
   ⟨"PASSED", "", "", none, 1⟩, ⟨"PASSED", "", "", none, 1⟩,
   ⟨"PASSED", "", "", none, 1⟩, ⟨"PASSED", "", "", none, 1⟩]

/-! ## Theorems -/

/-- C1: on a history of five PASSED entries and no failure, `detect_flakiness`
does not return false early: `total = 5` passes the sparse-data gate and the
unguarded `similar_error_failures / fail_count` raises `ZeroDivisionError`
(the guard the spec describes does not exist in the code). -/
theorem detect_flakiness_all_passing_raises :
    detect_flakiness simNever "err" c1_history = DetectRet.zeroDivisionError := by
  decide

/-- C2: on a history with fewer than five PASSED plus failing entries the
classifier returns the tuple `(False, "insufficient_data")` rather than the
boolean `False`; a non-empty tuple is truthy, so the caller's `if is_flaky:`
branch in `process_summary_result` treats the sparse-history result as flaky. -/
theorem detect_flakiness_sparse_tuple_is_truthy :
    detect_flakiness simNever "boom" c2_history = DetectRet.tup false "insufficient_data" ∧
    is_flaky_branch_taken (detect_flakiness simNever "boom" c2_history) = some true := by
  decide

/-- C4 counterexample: the batched update is not all-or-nothing.  With a
two-item batch whose second PUT fails, the call as a whole fails and yet the
first case result has already been written. -/
theorem assign_batch_partial_write_on_failure :
    assign_issue_to_case_result_batch c4_putOk c4_batch = ([1], false) ∧
    ([1] : List Nat) ≠ [] := by
  decide

/-- C4 (amended): the batch loop writes exactly the longest prefix of
successful PUTs, and reports success exactly when every PUT succeeded (a
failure surfaces as the raised error after the prefix is written). -/
theorem assign_batch_writes_successful_prefix (putOk : BatchUpdate → Bool)
    (batch : List BatchUpdate) :
    assign_issue_to_case_result_batch putOk batch =
      ((batch.takeWhile putOk).map (fun u => u.id), batch.all putOk) := by
  induction batch with
  | nil => rfl
  | cons u rest ih =>
    simp only [assign_issue_to_case_result_batch, List.takeWhile_cons, List.all_cons]
    cases h : putOk u <;> simp [h, ih]

/-- C9: the task is completed (that is, `complete_task` is reached) if and
only if every subtask's dueStatus is COMPLETE, in both the
`check_and_complete_task_if_all_subtasks_done` helper and the completion
guard of `finalize_task_completion`; otherwise the task is left untouched. -/
theorem task_completed_iff_all_subtasks_complete (subtasks : List Subtask)
    (openJiraIssueKeys : List String) :
    ((check_and_complete_task_if_all_subtasks_done subtasks openJiraIssueKeys).1 = true ↔
      ∀ s ∈ subtasks, s.dueStatusKey = "COMPLETE") ∧
    (finalize_task_completion_completes subtasks = true ↔
      ∀ s ∈ subtasks, s.dueStatusKey = "COMPLETE") := by
  constructor
  · unfold check_and_complete_task_if_all_subtasks_done
    split
    · next h => simpa using (by simpa [List.all_eq_true] using h)
    · next h => simpa using (by simpa [List.all_eq_true] using h)
  · simp [finalize_task_completion_completes, List.all_eq_true]

/-- C3 counterexample: the driver `analyze_testflow` does not group a
subtask's pending failures by normalized error — with two failures whose
normalized errors differ, a single issue-resolution decision (probed from
the first failure) covers them both, instead of one decision per group. -/
theorem analyze_testflow_one_decision_for_two_errors :
    normalize_error c3_f1.error ≠ normalize_error c3_f2.error ∧
    analyze_testflow_subtask_resolution c3_findSim (fun _ => none) [c3_f1, c3_f2] =
      [("LPD-1",
        [blocked_update 100 "BLOCKED" "LPD-1", blocked_update 101 "BLOCKED" "LPD-1"])] ∧
    (analyze_testflow_subtask_resolution c3_findSim (fun _ => none) [c3_f1, c3_f2]).length
      = 1 := by
  decide

/-- C5 counterexample: with a two-failure, no-pass window (no PASSED entry
before it), `get_first_failing_git_hash` returns the hash of the LATEST
window entry (the head of the descending-sorted window), not the hash of the
earliest known failure in the window as the spec states. -/
theorem get_first_failing_git_hash_not_earliest :
    get_last_passing_result c5_history c5_fail_late.executionDate = none ∧
    c5_history = [c5_fail_late, c5_fail_early] ∧
    get_first_failing_git_hash c5_history 1 = some "h2" ∧
    spec_earliest_window_failure_hash c5_history 1 = some "h1" ∧
    get_first_failing_git_hash c5_history 1 ≠
      spec_earliest_window_failure_hash c5_history 1 := by
  decide

/-- C5 (amended): when no prior passing run exists (the last-passing lookup
with the window head's execution date finds nothing), the function returns
the git hash of the MOST RECENT entry of the current build's window — the
head of the build-filtered, descending-sorted history. -/
theorem get_first_failing_git_hash_no_prior_pass
    (hist : List HistoryEntry) (buildId : Nat) (w0 : HistoryEntry)
    (rest : List HistoryEntry)
    (hwin : filter_case_result_history_by_build hist buildId = w0 :: rest)
    (hnopass : get_last_passing_result hist w0.executionDate = none) :
    get_first_failing_git_hash hist buildId = w0.gitHash := by
  have hne : hist.isEmpty = false := by
    cases hist with
    | nil => simp [filter_case_result_history_by_build] at hwin
    | cons a t => rfl
  unfold get_first_failing_git_hash
  rw [hne, hwin]
  simp only [Bool.false_eq_true, if_false, hnopass]

/-- C5 witness: the amended statement applied to the concrete no-pass window. -/
theorem get_first_failing_git_hash_no_prior_pass_witness :
    get_first_failing_git_hash c5_history 1 = c5_fail_late.gitHash :=
  get_first_failing_git_hash_no_prior_pass c5_history 1 c5_fail_late [c5_fail_early]
    (by decide) (by decide)

/-- C7 counterexample: `normalize_error` is not idempotent and one
application can leave a duration token.  Removing `7s` from `"4 7s ms"`
leaves `"4  ms"`, which still matches the duration pattern and which a
second application rewrites to `""`. -/
theorem normalize_error_not_idempotent :
    normalize_error "4 7s ms" = "4  ms" ∧
    normalize_error (normalize_error "4 7s ms") = "" ∧
    normalize_error (normalize_error "4 7s ms") ≠ normalize_error "4 7s ms" ∧
    hasDurationToken (normalize_error "4 7s ms") = true := by
  decide

/-- The prefix test agrees with the existence of a completing tail. -/
theorem startsWithB_iff_exists (n : List Char) :
    ∀ h : List Char, startsWithB n h = true ↔ ∃ t, h = n ++ t := by
  induction n with
  | nil => intro h; simp [startsWithB]
  | cons a as ih =>
    intro h
    cases h with
    | nil =>
      simp [startsWithB]
    | cons b bs =>
      simp only [startsWithB, Bool.and_eq_true, beq_iff_eq, ih bs, List.cons_append,
        List.cons.injEq]
      constructor
      · rintro ⟨rfl, t, rfl⟩; exact ⟨t, rfl, rfl⟩
      · rintro ⟨t, rfl, rfl⟩; exact ⟨rfl, t, rfl⟩

/-- The substring scan agrees with the existence of a decomposition. -/
theorem containsSub_iff_exists (n : List Char) :
    ∀ h : List Char, containsSub h n = true ↔ ∃ front back, h = front ++ n ++ back := by
  intro h
  induction h with
  | nil =>
    simp only [containsSub, List.isEmpty_iff]
    constructor
    · rintro rfl; exact ⟨[], [], rfl⟩
    · rintro ⟨front, back, hfb⟩
      rcases List.append_eq_nil.mp (List.append_eq_nil.mp hfb.symm).1 with ⟨-, h2⟩
      exact h2
  | cons c t ih =>
    simp only [containsSub, Bool.or_eq_true, startsWithB_iff_exists, ih]
    constructor
    · rintro (⟨tl, heq⟩ | ⟨front, back, heq⟩)
      · exact ⟨[], tl, by simpa using heq⟩
      · exact ⟨c :: front, back, by simp [heq]⟩
    · rintro ⟨front, back, heq⟩
      cases front with
      | nil => exact Or.inl ⟨back, by simpa using heq⟩
      | cons x xs =>
        simp only [List.cons_append, List.cons.injEq] at heq
        exact Or.inr ⟨xs, back, heq.2⟩

/-- Python `needle in hay` agrees with the substring proposition. -/
theorem strContainsB_iff (hay needle : String) :
    strContainsB hay needle = true ↔ ContainsSub hay needle :=
  containsSub_iff_exists needle.data hay.data

/-- C6: an error containing "AssertionError" is never skipped, a denylist
noise phrase notwithstanding; without "AssertionError" the result is skipped
exactly when some denylist keyword occurs as a substring.  The concrete
conjuncts check the spec's override example and the plain denylist cases. -/
theorem should_skip_result_spec :
    (∀ error : String,
      should_skip_result error = true ↔
        (¬ ContainsSub error "AssertionError" ∧
         ∃ k ∈ skip_error_keywords, ContainsSub error k)) ∧
    should_skip_result "Skipped test - java.lang.AssertionError: expected 1 got 2" = false ∧
    should_skip_result "Skipped test (known noise)" = true ∧
    should_skip_result "TEST_SETUP_ERROR: environment not ready" = true ∧
    should_skip_result "NullPointerException at Foo.java:10" = false := by
  refine ⟨?_, by decide, by decide, by decide, by decide⟩
  intro error
  unfold should_skip_result
  split
  · next hA =>
    simp only [Bool.false_eq_true, false_iff, not_and]
    intro hnc
    exact absurd ((strContainsB_iff error "AssertionError").mp hA) hnc
  · next hA =>
    constructor
    · intro hany
      refine ⟨fun hc => hA ((strContainsB_iff error "AssertionError").mpr hc), ?_⟩
      simpa [List.any_eq_true, strContainsB_iff] using hany
    · rintro ⟨-, hex⟩
      simpa [List.any_eq_true, strContainsB_iff] using hex

/-- C7 (amended): `normalize_error` is a total function of its input; empty
or null input yields the empty string; and on the spec's own example the
output contains no timestamp, no hex-address token, no duration token and
not the original quoted literal — but a single application is not idempotent
in general (see the counterexample). -/
theorem normalize_error_spec :
    normalize_error_opt none = "" ∧
    normalize_error_opt (some "") = "" ∧
    normalize_error "" = "" ∧
    (∀ s : String, normalize_error_opt (some s) = normalize_error s) ∧
    hasTimestampToken (normalize_error c7_spec_example) = false ∧
    hasHexAddressToken (normalize_error c7_spec_example) = false ∧
    hasDurationToken (normalize_error c7_spec_example) = false ∧
    strContainsB (normalize_error c7_spec_example) "\"foo\"" = false := by
  refine ⟨rfl, rfl, rfl, fun s => rfl, ?_, ?_, ?_, ?_⟩ <;> decide

/-- The statistics loop of `detect_flakiness` as closed-form counts. -/
theorem flaky_foldl_eq (sim : String → String → Bool) (cur : String) :
    ∀ (hist : List HistoryEntry) (acc : FlakyStats),
      hist.foldl (flakyStep sim cur) acc =
        ⟨acc.fail_count + hist.countP codeFailB,
         acc.pass_count + hist.countP (fun e => !codeFailB e && e.status == "PASSED"),
         acc.switch_count + switchFrom acc.last_status hist,
         acc.similar_error_failures +
           hist.countP (fun e => codeFailB e && sim cur (normalize_error e.error)),
         lastStatusAfter acc.last_status hist⟩ := by
  intro hist
  induction hist with
  | nil =>
    intro acc
    cases acc
    simp [switchFrom, lastStatusAfter]
  | cons e t ih =>
    intro acc
    rw [List.foldl_cons, ih]
    simp only [flakyStep, codeFailB, List.countP_cons, switchFrom, lastStatusAfter]
    by_cases h1 : strContainsB STATUS_FAILED_BLOCKED_TESTFIX e.status <;>
      by_cases h2 : e.status == "PASSED" <;>
        by_cases h3 : sim cur (normalize_error e.error) <;>
          by_cases h4 : acc.last_status ≠ "" && acc.last_status ≠ e.status <;>
            simp only [h1, h2, h3, h4, if_true, if_false, Bool.not_true, Bool.not_false,
              Bool.true_and, Bool.false_and, Bool.and_true, Bool.and_false, ite_true,
              ite_false, FlakyStats.mk.injEq, Bool.false_eq_true, Bool.true_eq_false] <;>
            and_intros <;> first | trivial | omega

/-- A status-wise switch count starting at a non-empty previous status equals
the adjacent-pair count of the history headed by that status. -/
theorem switchFrom_cons_eq :
    ∀ (t : List HistoryEntry) (e : HistoryEntry), e.status ≠ "" →
      (∀ x ∈ t, x.status ≠ "") →
      switchFrom e.status t = specSwitchCount (e :: t) := by
  intro t
  induction t with
  | nil => intro e _ _; simp [switchFrom, specSwitchCount]
  | cons e2 t ih =>
    intro e he hall
    have he2 : e2.status ≠ "" := hall e2 (by simp)
    rw [switchFrom, ih e2 he2 (fun x hx => hall x (List.mem_cons_of_mem _ hx))]
    simp only [specSwitchCount, List.tail_cons, List.zip_cons_cons, List.countP_cons]
    by_cases hst : e.status = e2.status <;> (simp [hst, he]; try omega)

/-- The loop's switch count from the initial `None` equals the spec's
adjacent-pair count when no status is falsy. -/
theorem switchFrom_eq_specSwitchCount (hist : List HistoryEntry)
    (h : ∀ e ∈ hist, e.status ≠ "") :
    switchFrom "" hist = specSwitchCount hist := by
  cases hist with
  | nil => rfl
  | cons e t =>
    have h0 : switchFrom "" (e :: t) = switchFrom e.status t := by
      simp [switchFrom]
    rw [h0]
    exact switchFrom_cons_eq t e (h e (by simp)) (fun x hx => h x (List.mem_cons_of_mem _ hx))

/-- C8: for a history of at least five PASSED-or-failing entries with at
least one failure (and only ordinary statuses, under which the code's
substring membership test agrees with the spec's status set), the
classifier returns the plain boolean of the spec's formula over the
oscillation, failure-rate and similar-error statistics. -/
theorem detect_flakiness_classification (sim : String → String → Bool) (cur : String)
    (hist : List HistoryEntry)
    (hstatus : ∀ e ∈ hist,
      e.status ∈ (["PASSED", "FAILED", "BLOCKED", "TESTFIX"] : List String))
    (htotal : 5 ≤ specTotal hist) (hfail : 1 ≤ specFailCount hist) :
    detect_flakiness sim cur hist = DetectRet.ok true ↔
      ((specSwitchCount hist : ℚ) / ((specTotal hist : ℚ) - 1) > 12 / 100 ∧
       (5 / 100 : ℚ) < (specFailCount hist : ℚ) / (specTotal hist : ℚ) ∧
       (specFailCount hist : ℚ) / (specTotal hist : ℚ) < 75 / 100 ∧
       (specSimilarErrorFailures sim cur hist : ℚ) / (specFailCount hist : ℚ) ≥ 9 / 10) := by
  have hstat4 : ∀ e ∈ hist, e.status = "PASSED" ∨ e.status = "FAILED" ∨
      e.status = "BLOCKED" ∨ e.status = "TESTFIX" := by
    intro e he; simpa using hstatus e he
  have hcode_fail : hist.countP codeFailB = specFailCount hist := by
    unfold specFailCount
    refine List.countP_congr ?_
    intro e he
    rcases hstat4 e he with h | h | h | h <;>
      simp [codeFailB, isFailingStatus, failingStatuses, strContainsB,
        STATUS_FAILED_BLOCKED_TESTFIX, h] <;> decide
  have hcode_pass :
      hist.countP (fun e => !codeFailB e && e.status == "PASSED") = specPassCount hist := by
    unfold specPassCount
    refine List.countP_congr ?_
    intro e he
    rcases hstat4 e he with h | h | h | h <;>
      (simp [codeFailB, strContainsB, STATUS_FAILED_BLOCKED_TESTFIX, h]; try decide)
  have hcode_sim :
      hist.countP (fun e => codeFailB e && sim cur (normalize_error e.error)) =
        specSimilarErrorFailures sim cur hist := by
    unfold specSimilarErrorFailures
    refine List.countP_congr ?_
    intro e he
    rcases hstat4 e he with h | h | h | h <;>
      cases hs : sim cur (normalize_error e.error) <;>
        simp [codeFailB, isFailingStatus, failingStatuses, strContainsB,
          STATUS_FAILED_BLOCKED_TESTFIX, h, hs] <;> decide
  have hstatus_ne : ∀ e ∈ hist, e.status ≠ "" := by
    intro e he
    rcases hstat4 e he with h | h | h | h <;> simp [h]
  have hne : hist ≠ [] := by
    intro h
    rw [h] at htotal
    simp [specTotal, specPassCount, specFailCount] at htotal
  have hT : specTotal hist = specPassCount hist + specFailCount hist := rfl
  simp only [detect_flakiness]
  rw [if_neg (by simpa [List.isEmpty_iff] using hne), flaky_foldl_eq]
  simp only [Nat.zero_add, hcode_fail, hcode_pass, hcode_sim,
    switchFrom_eq_specSwitchCount hist hstatus_ne]
  rw [if_neg (show ¬ specPassCount hist + specFailCount hist < 5 by rw [← hT]; omega),
    if_neg (show ¬ ((specFailCount hist == 0) = true) by
      simp only [beq_iff_eq]; omega)]
  rw [← hT]
  simp only [DetectRet.ok.injEq, Bool.and_eq_true, decide_eq_true_eq]
  constructor
  · rintro ⟨⟨hq1, hq2, hq3⟩, hq4⟩; exact ⟨hq1, hq2, hq3, hq4⟩
  · rintro ⟨hq1, hq2, hq3, hq4⟩; exact ⟨⟨hq1, hq2, hq3⟩, hq4⟩

/-- Keys after a grouped insertion: unchanged when the key is present,
appended otherwise. -/
theorem insertGrouped_keys (k : String) (f : Failure) :
    ∀ gs : List (String × List Failure),
      (insertGrouped gs k f).map Prod.fst =
        if k ∈ gs.map Prod.fst then gs.map Prod.fst else gs.map Prod.fst ++ [k] := by
  intro gs
  induction gs with
  | nil => simp [insertGrouped]
  | cons p rest ih =>
    obtain ⟨k0, l0⟩ := p
    by_cases hk : k0 = k
    · subst hk
      simp [insertGrouped]
    · have hk' : ¬ k = k0 := fun h => hk h.symm
      simp only [insertGrouped, if_neg hk, List.map_cons, ih, List.mem_cons]
      by_cases hmem : k ∈ rest.map Prod.fst <;> simp [hmem, hk', List.cons_append]

/-- Grouped insertion preserves distinctness of the keys. -/
theorem insertGrouped_nodup (k : String) (f : Failure)
    (gs : List (String × List Failure)) (h : (gs.map Prod.fst).Nodup) :
    ((insertGrouped gs k f).map Prod.fst).Nodup := by
  rw [insertGrouped_keys]
  split
  · exact h
  · next hmem =>
    simp only [List.nodup_append, List.nodup_cons, List.not_mem_nil, not_false_iff,
      List.nodup_nil, and_true, true_and]
    exact ⟨h, by simpa [List.disjoint_singleton] using hmem⟩

/-- Where a pair can come from after a grouped insertion (under distinct
keys): an untouched group with a different key, the extended group of the
inserted key, or a fresh singleton group for a new key. -/
theorem mem_insertGrouped (k : String) (f : Failure) :
    ∀ gs : List (String × List Failure), (gs.map Prod.fst).Nodup →
      ∀ k' g', (k', g') ∈ insertGrouped gs k f →
        (k' ≠ k ∧ (k', g') ∈ gs) ∨
        (k' = k ∧ ∃ g0, (k, g0) ∈ gs ∧ g' = g0 ++ [f]) ∨
        (k' = k ∧ k ∉ gs.map Prod.fst ∧ g' = [f]) := by
  intro gs
  induction gs with
  | nil =>
    intro _ k' g' h
    simp only [insertGrouped, List.mem_singleton, Prod.mk.injEq] at h
    exact Or.inr (Or.inr ⟨h.1, by simp, h.2⟩)
  | cons p rest ih =>
    obtain ⟨k0, l0⟩ := p
    intro hnd k' g' h
    have hnd' : (rest.map Prod.fst).Nodup := (List.nodup_cons.mp (by simpa using hnd)).2
    have hhead : k0 ∉ rest.map Prod.fst := (List.nodup_cons.mp (by simpa using hnd)).1
    by_cases hk : k0 = k
    · rw [insertGrouped, if_pos hk] at h
      rcases List.mem_cons.mp h with heq | hmem
      · rw [Prod.mk.injEq] at heq
        refine Or.inr (Or.inl ⟨heq.1.trans hk, l0, ?_, heq.2⟩)
        rw [← hk]
        exact List.mem_cons_self _ _
      · by_cases hk' : k' = k
        · exfalso
          apply hhead
          have hmm : k' ∈ rest.map Prod.fst := List.mem_map_of_mem Prod.fst hmem
          rwa [hk', ← hk] at hmm
        · exact Or.inl ⟨hk', List.mem_cons_of_mem _ hmem⟩
    · rw [insertGrouped, if_neg hk] at h
      rcases List.mem_cons.mp h with heq | hmem
      · rw [Prod.mk.injEq] at heq
        refine Or.inl ⟨?_, ?_⟩
        · rw [heq.1]; exact hk
        · rw [heq.1, heq.2]; exact List.mem_cons_self _ _
      · rcases ih hnd' k' g' hmem with ⟨hne, hm⟩ | ⟨hk'', g0, hg0, hgeq⟩ | ⟨hk'', hnm, hgeq⟩
        · exact Or.inl ⟨hne, List.mem_cons_of_mem _ hm⟩
        · exact Or.inr (Or.inl ⟨hk'', g0, List.mem_cons_of_mem _ hg0, hgeq⟩)
        · refine Or.inr (Or.inr ⟨hk'', ?_, hgeq⟩)
          simp only [List.map_cons, List.mem_cons]
          rintro (hh | hh)
          · exact hk hh.symm
          · exact hnm hh

/-- The invariant of the grouping fold: starting from groups that partition
the already processed failures by normalized error, folding further failures
yields groups that partition all of them. -/
theorem group_fold_spec (fs : List Failure) :
    ∀ (acc : List (String × List Failure)) (processed : List Failure),
      (acc.map Prod.fst).Nodup →
      (∀ k g, (k, g) ∈ acc →
        g = processed.filter (fun f => normalize_error f.error == k)) →
      (∀ f ∈ processed, normalize_error f.error ∈ acc.map Prod.fst) →
      (((fs.foldl (fun gs f => insertGrouped gs (normalize_error f.error) f) acc).map
          Prod.fst).Nodup ∧
       (∀ k g,
          (k, g) ∈ fs.foldl (fun gs f => insertGrouped gs (normalize_error f.error) f) acc →
          g = (processed ++ fs).filter (fun f => normalize_error f.error == k)) ∧
       (∀ f ∈ processed ++ fs, normalize_error f.error ∈
          (fs.foldl (fun gs f => insertGrouped gs (normalize_error f.error) f) acc).map
            Prod.fst)) := by
  induction fs with
  | nil =>
    intro acc processed h1 h2 h3
    simp only [List.foldl_nil, List.append_nil]
    exact ⟨h1, h2, h3⟩
  | cons f fs ih =>
    intro acc processed h1 h2 h3
    have h1' : ((insertGrouped acc (normalize_error f.error) f).map Prod.fst).Nodup :=
      insertGrouped_nodup _ _ _ h1
    have h2' : ∀ k g, (k, g) ∈ insertGrouped acc (normalize_error f.error) f →
        g = (processed ++ [f]).filter (fun x => normalize_error x.error == k) := by
      intro k g hg
      rcases mem_insertGrouped _ _ acc h1 k g hg with
        ⟨hne, hm⟩ | ⟨rfl, g0, hg0, rfl⟩ | ⟨rfl, hnm, rfl⟩
      · rw [h2 k g hm, List.filter_append]
        have hq : (normalize_error f.error == k) = false := by
          simp only [beq_eq_false_iff_ne, ne_eq]
          exact fun hh => hne hh.symm
        rw [List.filter_singleton, hq]
        simp
      · rw [h2 _ g0 hg0, List.filter_append, List.filter_singleton]
        simp
      · rw [List.filter_append, List.filter_singleton]
        have hproc : processed.filter
            (fun x => normalize_error x.error == normalize_error f.error) = [] := by
          rw [List.filter_eq_nil_iff]
          intro x hx hpx
          exact hnm (beq_iff_eq.mp hpx ▸ h3 x hx)
        simp [hproc]
    have h3' : ∀ x ∈ processed ++ [f], normalize_error x.error ∈
        (insertGrouped acc (normalize_error f.error) f).map Prod.fst := by
      intro x hx
      rw [insertGrouped_keys]
      rcases List.mem_append.mp hx with hx | hx
      · have hmem := h3 x hx
        split <;> simp [hmem]
      · simp only [List.mem_singleton] at hx
        subst hx
        split
        · next hmem => exact hmem
        · simp
    have hres := ih (insertGrouped acc (normalize_error f.error) f) (processed ++ [f])
      h1' h2' h3'
    simpa [List.foldl_cons, List.append_assoc] using hres

/-- Each normalized-error key receives exactly one resolution decision, and
it is the decision of that key's own group. -/
theorem decisions_filter (F : List Failure → Resolution) :
    ∀ gs : List (String × List Failure), (gs.map Prod.fst).Nodup →
      ∀ k g, (k, g) ∈ gs →
        (gs.map (fun kg => (kg.1, F kg.2))).filter (fun kr => kr.1 == k) = [(k, F g)] := by
  intro gs
  induction gs with
  | nil => intro _ k g h; simp at h
  | cons p rest ih =>
    obtain ⟨k0, l0⟩ := p
    intro hnd k g hmem
    have hnd' : (rest.map Prod.fst).Nodup := (List.nodup_cons.mp (by simpa using hnd)).2
    have hhead : k0 ∉ rest.map Prod.fst := (List.nodup_cons.mp (by simpa using hnd)).1
    rcases List.mem_cons.mp hmem with heq | hmem'
    · rw [Prod.mk.injEq] at heq
      obtain ⟨rfl, rfl⟩ := heq
      have hrest : (rest.map (fun kg => (kg.1, F kg.2))).filter
          (fun kr => kr.1 == k) = [] := by
        rw [List.filter_eq_nil_iff]
        intro kr hkr hbeq
        rcases List.mem_map.mp hkr with ⟨kg, hkg, rfl⟩
        exact hhead (beq_iff_eq.mp hbeq ▸ List.mem_map_of_mem Prod.fst hkg)
      simp only [List.map_cons, List.filter_cons, beq_self_eq_true, if_pos, hrest]
    · have hk : k ≠ k0 := by
        rintro rfl
        exact hhead (List.mem_map_of_mem Prod.fst hmem')
      have hk0 : (k0 == k) = false := by
        simp only [beq_eq_false_iff_ne, ne_eq]
        exact fun hh => hk hh.symm
      simp only [List.map_cons, List.filter_cons, hk0]
      exact ih hnd' k g hmem'

/-- C3 (amended): in the helper pipeline (`process_task_subtasks`) the
pending failures of a subtask are grouped by normalized error — the group
keys are distinct, every group is exactly the failures with its key, every
pending failure lies in some group — and `process_subtask_groups` makes
exactly one resolution decision per key, covering that key's whole group.
(The `analyze_testflow` driver instead makes a single decision for all
pending failures of a subtask; see the counterexample.) -/
theorem process_task_subtasks_grouping
    (findSim : Nat → String → Option String) (createIssue : List Failure → Option String)
    (subtaskId : Nat) (results : List CaseResult) :
    ((group_failures_by_error ((scan_unique_failures subtaskId results).1)).map
        Prod.fst).Nodup ∧
    (∀ k g, (k, g) ∈ group_failures_by_error ((scan_unique_failures subtaskId results).1) →
       g = ((scan_unique_failures subtaskId results).1).filter
         (fun f => normalize_error f.error == k)) ∧
    (∀ f ∈ (scan_unique_failures subtaskId results).1,
       normalize_error f.error ∈
         (group_failures_by_error ((scan_unique_failures subtaskId results).1)).map
           Prod.fst) ∧
    (∀ k g, (k, g) ∈ group_failures_by_error ((scan_unique_failures subtaskId results).1) →
       (process_subtask_groups findSim createIssue
           (group_failures_by_error ((scan_unique_failures subtaskId results).1))).filter
         (fun kr => kr.1 == k)
        = [(k, resolve_unique_failures findSim createIssue g)]) := by
  obtain ⟨h1, h2, h3⟩ := group_fold_spec ((scan_unique_failures subtaskId results).1) [] []
    (by simp) (by simp) (by simp)
  refine ⟨h1, fun k g hg => by simpa using h2 k g hg, fun f hf => by simpa using h3 f (by simpa using hf), ?_⟩
  intro k g hg
  exact decisions_filter (resolve_unique_failures findSim createIssue) _ h1 k g hg

theorem digitVal_le_nine (c : Char) (h : isDigitCh c = true) : digitVal c ≤ 9 := by
  unfold isDigitCh at h
  simp only [Bool.and_eq_true, decide_eq_true_eq] at h
  unfold digitVal
  omega

theorem digitsVal_aux_lt (run : List Char) :
    ∀ acc : Nat, (∀ c ∈ run, isDigitCh c = true) →
      run.foldl (fun a c => a * 10 + digitVal c) acc < (acc + 1) * 10 ^ run.length := by
  induction run with
  | nil => intro acc _; simp
  | cons c t ih =>
    intro acc h
    have hc : digitVal c ≤ 9 := digitVal_le_nine c (h c (by simp))
    have ht := ih (acc * 10 + digitVal c) (fun x hx => h x (List.mem_cons_of_mem _ hx))
    rw [List.foldl_cons, List.length_cons]
    refine lt_of_lt_of_le ht ?_
    have hstep : acc * 10 + digitVal c + 1 ≤ (acc + 1) * 10 := by omega
    calc (acc * 10 + digitVal c + 1) * 10 ^ t.length
        ≤ ((acc + 1) * 10) * 10 ^ t.length := Nat.mul_le_mul_right _ hstep
      _ = (acc + 1) * 10 ^ (t.length + 1) := by ring

theorem digitsVal_lt (run : List Char) (h : ∀ c ∈ run, isDigitCh c = true) :
    digitsVal run < 10 ^ run.length := by
  have haux := digitsVal_aux_lt run 0 h
  simpa [digitsVal] using haux

theorem splitDigits_fst_digits (l : List Char) :
    ∀ c ∈ (splitDigits l).1, isDigitCh c = true :=
  fun _ hc => List.mem_takeWhile_imp hc

theorem parseYear_bound (l : List Char) (y : Nat) (rest : List Char)
    (h : parseYear l = some (y, rest)) : y ≤ 9999 := by
  unfold parseYear at h
  split at h
  · next hlen =>
    rw [Option.some.injEq, Prod.mk.injEq] at h
    have hlt := digitsVal_lt _ (splitDigits_fst_digits l)
    have hlen4 : (splitDigits l).1.length = 4 := by simpa using hlen
    rw [hlen4] at hlt
    norm_num at hlt
    omega
  · exact absurd h (by simp)

theorem parseField2_cases (ok1 ok2 : Nat → Bool) (l : List Char) (v : Nat)
    (rest : List Char) (h : parseField2 ok1 ok2 l = some (v, rest)) :
    (v ≤ 9 ∧ ok1 v = true) ∨ ok2 v = true := by
  unfold parseField2 at h
  split at h
  · next a heq =>
    have ha : isDigitCh a = true :=
      splitDigits_fst_digits l a (by rw [heq]; simp)
    split at h
    · next hok =>
      rw [Option.some.injEq, Prod.mk.injEq] at h
      exact Or.inl ⟨h.1 ▸ digitVal_le_nine a ha, h.1 ▸ hok⟩
    · exact absurd h (by simp)
  · next a b heq =>
    split at h
    · next hok =>
      rw [Option.some.injEq, Prod.mk.injEq] at h
      exact Or.inr (h.1 ▸ hok)
    · exact absurd h (by simp)
  · exact absurd h (by simp)

theorem parseFrac_bound (l : List Char) (f : Nat) (h : parseFrac l = some f) :
    f ≤ 999999 := by
  unfold parseFrac at h
  split at h
  · next hcond =>
    rw [Option.some.injEq] at h
    have hlt := digitsVal_lt _ (splitDigits_fst_digits l)
    simp only [Bool.and_eq_true, decide_eq_true_eq] at hcond
    have hlen : (splitDigits l).1.length ≤ 6 := hcond.2
    have hmul : digitsVal (splitDigits l).1 * 10 ^ (6 - (splitDigits l).1.length) <
        10 ^ (splitDigits l).1.length * 10 ^ (6 - (splitDigits l).1.length) :=
      Nat.mul_lt_mul_of_lt_of_le hlt (le_refl _) (Nat.pos_pow_of_pos _ (by norm_num))
    rw [← pow_add] at hmul
    have harith : (splitDigits l).1.length + (6 - (splitDigits l).1.length) = 6 := by
      omega
    rw [harith] at hmul
    norm_num at hmul
    omega
  · exact absurd h (by simp)

theorem mkValidDateTime_spec (y mo d h mi s f : Nat) (dt : PyDateTime)
    (hv : mkValidDateTime y mo d h mi s f = some dt) :
    dt = ⟨y, mo, d, h, mi, s, f⟩ ∧ 1 ≤ y ∧ d ≤ daysInMonth y mo ∧ s ≤ 59 := by
  unfold mkValidDateTime at hv
  split at hv
  · next hcond =>
    rw [Option.some.injEq] at hv
    simp only [Bool.and_eq_true, decide_eq_true_eq] at hcond
    exact ⟨hv.symm, hcond.1.1, hcond.1.2, hcond.2⟩
  · exact absurd hv (by simp)

theorem strptimeFormat_ranges (wf : Bool) (l : List Char) (dt : PyDateTime)
    (h : strptimeFormat wf l = some dt) :
    1 ≤ dt.year ∧ dt.year ≤ 9999 ∧ 1 ≤ dt.month ∧ dt.month ≤ 12 ∧ 1 ≤ dt.day ∧
    dt.day ≤ daysInMonth dt.year dt.month ∧ dt.hour ≤ 23 ∧ dt.minute ≤ 59 ∧
    dt.second ≤ 59 ∧ dt.microsecond ≤ 999999 := by
  unfold strptimeFormat at h
  simp only [bind, Option.bind_eq_some] at h
  obtain ⟨⟨y, l1⟩, hy, h⟩ := h
  obtain ⟨l2, hc1, h⟩ := h
  obtain ⟨⟨mo, l3⟩, hmo, h⟩ := h
  obtain ⟨l4, hc2, h⟩ := h
  obtain ⟨⟨d, l5⟩, hd, h⟩ := h
  obtain ⟨l6, hws, h⟩ := h
  obtain ⟨⟨hr, l7⟩, hhour, h⟩ := h
  obtain ⟨l8, hc3, h⟩ := h
  obtain ⟨⟨mi, l9⟩, hmin, h⟩ := h
  obtain ⟨l10, hc4, h⟩ := h
  obtain ⟨⟨s, l11⟩, hsec, h⟩ := h
  have hyb : y ≤ 9999 := parseYear_bound _ _ _ hy
  have hmob : 1 ≤ mo ∧ mo ≤ 12 := by
    rcases parseField2_cases _ _ _ _ _ hmo with ⟨h9, hok⟩ | hok
    · exact ⟨by simpa using hok, by omega⟩
    · simp only [Bool.and_eq_true, decide_eq_true_eq] at hok
      exact hok
  have hdb : 1 ≤ d := by
    rcases parseField2_cases _ _ _ _ _ hd with ⟨h9, hok⟩ | hok
    · simpa using hok
    · simp only [Bool.and_eq_true, decide_eq_true_eq] at hok
      exact hok.1
  have hrb : hr ≤ 23 := by
    rcases parseField2_cases _ _ _ _ _ hhour with ⟨h9, -⟩ | hok
    · omega
    · simpa using hok
  have hmib : mi ≤ 59 := by
    rcases parseField2_cases _ _ _ _ _ hmin with ⟨h9, -⟩ | hok
    · omega
    · simpa using hok
  cases wf with
  | true =>
    simp only [if_true, bind, Option.bind_eq_some] at h
    obtain ⟨l12, hdot, h⟩ := h
    obtain ⟨f, hfrac, h⟩ := h
    obtain ⟨rfl, hy1, hdd, hs59⟩ := mkValidDateTime_spec _ _ _ _ _ _ _ _ h
    have hfb : f ≤ 999999 := parseFrac_bound _ _ hfrac
    exact ⟨hy1, hyb, hmob.1, hmob.2, hdb, hdd, hrb, hmib, hs59, hfb⟩
  | false =>
    simp only [if_false, Bool.false_eq_true] at h
    split at h
    · obtain ⟨rfl, hy1, hdd, hs59⟩ := mkValidDateTime_spec _ _ _ _ _ _ _ _ h
      exact ⟨hy1, hyb, hmob.1, hmob.2, hdb, hdd, hrb, hmib, hs59, Nat.zero_le _⟩
    · exact absurd h (by simp)

/-- Ranges through the two-format fallback. -/
theorem formats_orElse_ranges (l : List Char) (dt : PyDateTime)
    (h : (strptimeFormat true l).orElse (fun _ => strptimeFormat false l) = some dt) :
    1 ≤ dt.year ∧ dt.year ≤ 9999 ∧ 1 ≤ dt.month ∧ dt.month ≤ 12 ∧ 1 ≤ dt.day ∧
    dt.day ≤ daysInMonth dt.year dt.month ∧ dt.hour ≤ 23 ∧ dt.minute ≤ 59 ∧
    dt.second ≤ 59 ∧ dt.microsecond ≤ 999999 := by
  cases htry : strptimeFormat true l with
  | some d0 =>
    rw [htry] at h
    simp only [Option.orElse] at h
    rw [Option.some.injEq] at h
    exact h ▸ strptimeFormat_ranges true l d0 htry
  | none =>
    rw [htry] at h
    simp only [Option.orElse] at h
    exact strptimeFormat_ranges false l dt h

/-- C10: `parse_execution_date` is total — every string maps to a datetime
or `None` — and when it returns a datetime, every field is in the valid
`datetime` range (month 1-12, day within the month, hour/minute/second in
range, microseconds below one million).  The concrete conjuncts check the
preprocessing (strip, one trailing `Z`, `T`-to-space), both accepted formats
(single-digit fields and fractional seconds included), and rejections:
calendar-invalid dates, leap seconds, double `Z`, junk and the empty string. -/
theorem parse_execution_date_spec :
    (∀ (s : String) (dt : PyDateTime), parse_execution_date s = some dt →
       1 ≤ dt.year ∧ dt.year ≤ 9999 ∧ 1 ≤ dt.month ∧ dt.month ≤ 12 ∧ 1 ≤ dt.day ∧
       dt.day ≤ daysInMonth dt.year dt.month ∧ dt.hour ≤ 23 ∧ dt.minute ≤ 59 ∧
       dt.second ≤ 59 ∧ dt.microsecond ≤ 999999) ∧
    parse_execution_date "2024-01-02T03:04:05.123456Z" = some ⟨2024, 1, 2, 3, 4, 5, 123456⟩ ∧
    parse_execution_date "2024-01-02T03:04:05Z" = parse_execution_date "2024-01-02 03:04:05" ∧
    parse_execution_date " 2024-1-2 3:4:5 " = some ⟨2024, 1, 2, 3, 4, 5, 0⟩ ∧
    parse_execution_date "2024-02-30 03:04:05" = none ∧
    parse_execution_date "2024-01-02 03:04:60" = none ∧
    parse_execution_date "2024-01-02 03:04:05ZZ" = none ∧
    parse_execution_date "not a date" = none ∧
    parse_execution_date "" = none := by
  refine ⟨?_, by decide, by decide, by decide, by decide, by decide, by decide,
    by decide, by decide⟩
  intro s dt h
  exact formats_orElse_ranges _ dt (by simpa [parse_execution_date] using h)

/-- C8 witness: the classification applied to the concrete oscillating
history (three same-error failures among ten runs, five status switches)
with an always-similar oracle: the formula holds, so the case is flaky. -/
theorem detect_flakiness_classification_witness :
    detect_flakiness simAlways "e" c8_history = DetectRet.ok true :=
  (detect_flakiness_classification simAlways "e" c8_history (by decide) (by decide)
    (by decide)).mpr (by
      have h1 : specSwitchCount c8_history = 5 := by decide
      have h2 : specTotal c8_history = 10 := by decide
      have h3 : specFailCount c8_history = 3 := by decide
      have h4 : specSimilarErrorFailures simAlways "e" c8_history = 3 := by decide
      rw [h1, h2, h3, h4]
      norm_num)

end Testray
